import Mathlib

/-!
Shallow embedding of the buildlogger REST query layer
(`rest/buildlogger_routes.go` of the cedar repository): query-option
resolution, retrieval-mode selection, group time-range inference, the
test-name metadata fan-out/fallback merge, and the pagination responder.

Go instants (`time.Time`) are modelled as naturals, the zero value
being the zero instant; `After`/`Before` are the strict order and
`Format(time.RFC3339)` is modelled as an injective rendering to a
string. Go `error` values are modelled by `Except GoError`, where
`GoError` distinguishes a `gimlet.ErrorResponse` (carrying its status
code) from any other error, which is what the type assertion
`err.(gimlet.ErrorResponse)` in the source observes.
-/

/-- Model of Go `time.Time`: an instant, as a natural number; `0` is the
zero instant. -/
abbrev Time := Nat

/-- Go `time.Time.IsZero`. -/
def Time.isZero (t : Time) : Bool := t == 0

/-- Go `a.After(b)`: strictly later. -/
def Time.after (a b : Time) : Bool := b < a

/-- Go `a.Before(b)`: strictly earlier. -/
def Time.before (a b : Time) : Bool := a < b

/-- Model of Go `t.Format(time.RFC3339)`: rendering an instant to its
textual form, injectively. -/
def Time.formatRFC3339 (t : Time) : String := toString t

/-- Modelled from the spec: `util.TimeRange` (package `util` is not under
`src/`): a closed interval of instants with a defined zero/unset state. -/
structure TimeRange where
  startAt : Time
  endAt : Time
deriving DecidableEq, Repr

/-- Modelled from the spec: `util.TimeRange.IsZero` (package `util` is not
under `src/`); per the spec, "zero" means both fields are the zero
instant. -/
def TimeRange.isZero (tr : TimeRange) : Bool :=
  tr.startAt.isZero && tr.endAt.isZero

/-- The zero value of `util.TimeRange`. -/
def TimeRange.zero : TimeRange := ⟨0, 0⟩

/-- Modelled from the spec: `model.APILog` (the metadata entry type is not
under `src/`); only the fields the routes read are modelled:
`CreatedAt` and `CompletedAt`. -/
structure APILog where
  createdAt : Time
  completedAt : Time
deriving DecidableEq, Repr

/-- Model of a Go `error` as observed by the routes: either a
`gimlet.ErrorResponse` (the type assertion succeeds, exposing the status
code) or any other error. -/
inductive GoError where
  | errorResponse (statusCode : Nat)
  | other (msg : String)
deriving DecidableEq, Repr

/-- `http.StatusNotFound`. -/
def statusNotFound : Nat := 404

/-- `softSizeLimit = 10 * 1024 * 1024` from the route constants. -/
def softSizeLimitConst : Int := 10 * 1024 * 1024

/-- `baseURL` from the route constants. -/
def baseURL : String := "https://cedar.mongodb.com"

/-- Modelled from the spec: `data.BuildloggerOptions` (package
`rest/data` is not under `src/`); the struct carries exactly the fields
the routes assign, all zero-valued by default as in Go. -/
structure BuildloggerOptions where
  id : String := ""
  taskID : String := ""
  testName : String := ""
  processName : String := ""
  execution : Int := 0
  tags : List String := []
  timeRange : TimeRange := TimeRange.zero
  printTime : Bool := false
  printPriority : Bool := false
  limit : Int := 0
  tail : Int := 0
  softSizeLimit : Int := 0
deriving DecidableEq, Repr

/-- The parsed state of `logGetByIDHandler`. -/
structure LogGetByIDHandler where
  id : String := ""
  tr : TimeRange := TimeRange.zero
  printTime : Bool := false
  printPriority : Bool := false
  paginate : Bool := false
  limit : Int := 0
deriving DecidableEq, Repr

/-- The parsed state of `logGetByTaskIDHandler`. -/
structure LogGetByTaskIDHandler where
  id : String := ""
  procName : String := ""
  execution : Int := 0
  tags : List String := []
  tr : TimeRange := TimeRange.zero
  printTime : Bool := false
  printPriority : Bool := false
  paginate : Bool := false
  n : Int := 0
  limit : Int := 0
deriving DecidableEq, Repr

/-- The parsed state of `logGetByTestNameHandler`. -/
structure LogGetByTestNameHandler where
  id : String := ""
  name : String := ""
  tags : List String := []
  tr : TimeRange := TimeRange.zero
  printTime : Bool := false
  printPriority : Bool := false
  paginate : Bool := false
  limit : Int := 0
deriving DecidableEq, Repr

/-- The parsed state of `logGroupHandler`. -/
structure LogGroupHandler where
  id : String := ""
  name : String := ""
  groupID : String := ""
  tags : List String := []
  tr : TimeRange := TimeRange.zero
  printTime : Bool := false
  printPriority : Bool := false
  paginate : Bool := false
  limit : Int := 0
deriving DecidableEq, Repr

/-- The options built by `logGetByIDHandler.Run` before calling
`FindLogByID`: the struct literal followed by the soft-size-limit
guard `if h.paginate && opts.Limit <= 0`. -/
def logGetByIDOpts (h : LogGetByIDHandler) : BuildloggerOptions :=
  let opts : BuildloggerOptions :=
    { id := h.id, timeRange := h.tr, printTime := h.printTime,
      printPriority := h.printPriority, limit := h.limit }
  if h.paginate = true ∧ opts.limit ≤ 0 then
    { opts with softSizeLimit := softSizeLimitConst }
  else opts

/-- The options built by `logGetByTaskIDHandler.Run` before calling
`FindLogsByTaskID`: the struct literal followed by the guard
`if h.paginate && opts.Limit <= 0 && opts.Tail <= 0`. -/
def logGetByTaskIDOpts (h : LogGetByTaskIDHandler) : BuildloggerOptions :=
  let opts : BuildloggerOptions :=
    { taskID := h.id, execution := h.execution, processName := h.procName,
      tags := h.tags, timeRange := h.tr, printTime := h.printTime,
      printPriority := h.printPriority, limit := h.limit, tail := h.n }
  if h.paginate = true ∧ opts.limit ≤ 0 ∧ opts.tail ≤ 0 then
    { opts with softSizeLimit := softSizeLimitConst }
  else opts

/-- The options built by `logGetByTestNameHandler.Run` before calling
`FindLogsByTestName`. -/
def logGetByTestNameOpts (h : LogGetByTestNameHandler) : BuildloggerOptions :=
  let opts : BuildloggerOptions :=
    { taskID := h.id, testName := h.name, tags := h.tags, timeRange := h.tr,
      printTime := h.printTime, printPriority := h.printPriority,
      limit := h.limit }
  if h.paginate = true ∧ opts.limit ≤ 0 then
    { opts with softSizeLimit := softSizeLimitConst }
  else opts

/-- The options built by `logGroupHandler.Run` before the time-range
inference step: note `Tags: append(h.tags, h.groupID)`. -/
def logGroupOpts (h : LogGroupHandler) : BuildloggerOptions :=
  let opts : BuildloggerOptions :=
    { taskID := h.id, testName := h.name, tags := h.tags ++ [h.groupID],
      timeRange := h.tr, printTime := h.printTime,
      printPriority := h.printPriority, limit := h.limit }
  if h.paginate = true ∧ opts.limit ≤ 0 then
    { opts with softSizeLimit := softSizeLimitConst }
  else opts

/-- One step of the range-inference loop body in `logGroupHandler.Run`:
```
if opts.TimeRange.StartAt.After(time.Time(log.CreatedAt)) || opts.TimeRange.StartAt.IsZero() {
    opts.TimeRange.StartAt = time.Time(log.CreatedAt)
}
if opts.TimeRange.EndAt.Before(time.Time(log.CompletedAt)) {
    opts.TimeRange.EndAt = time.Time(log.CompletedAt)
}
```
-/
def inferStep (tr : TimeRange) (log : APILog) : TimeRange :=
  let tr1 :=
    if tr.startAt.after log.createdAt || tr.startAt.isZero then
      { tr with startAt := log.createdAt }
    else tr
  if tr1.endAt.before log.completedAt then
    { tr1 with endAt := log.completedAt }
  else tr1

/-- The range-inference loop of `logGroupHandler.Run`:
`for _, log := range testLogs { ... }` folding `inferStep` over the
fetched metadata entries. -/
def inferRange (tr : TimeRange) (logs : List APILog) : TimeRange :=
  logs.foldl inferStep tr

/-- `logMetaGetByTestNameHandler.Run` after the locator is fixed: takes
the outcomes of the test-scoped fetch and of the global
(test-name-cleared) fetch and merges them. Mirrors
```
testLogs, err := h.sc.FindLogMetadataByTestName(ctx, opts)
if err != nil { return <error> }
opts.TestName = ""
globalLogs, err := h.sc.FindLogMetadataByTestName(ctx, opts)
errResp, ok := err.(gimlet.ErrorResponse)
if err != nil && (!ok || errResp.StatusCode == http.StatusNotFound) { return <error> }
return gimlet.NewJSONResponse(append(testLogs, globalLogs...))
```
On a fetch error the connector returns a nil slice, so the absorbed-error
branch appends nothing. -/
def logMetaGetByTestNameRun (testFetch globalFetch : Except GoError (List APILog)) :
    Except GoError (List APILog) :=
  match testFetch with
  | .error e => .error e
  | .ok testLogs =>
    match globalFetch with
    | .ok globalLogs => .ok (testLogs ++ globalLogs)
    | .error e =>
      match e with
      | .errorResponse status =>
          if status == statusNotFound then .error (.errorResponse status)
          else .ok (testLogs ++ [])
      | .other m => .error (.other m)

/-- Model of Go `url.Values`: a map from parameter name to the list of
supplied values. -/
abbrev Vals := String → List String

/-- Go `url.Values.Get`: the first value for the key, or the empty
string when absent. -/
def valsGet (vals : Vals) (k : String) : String := (vals k).headD ""

/-- Parse a non-empty all-digit character list as a decimal numeral. -/
def digitsToNat? (cs : List Char) : Option Nat :=
  if cs ≠ [] ∧ cs.all Char.isDigit then
    some (cs.foldl (fun a c => a * 10 + (c.toNat - Char.toNat '0')) 0)
  else none

/-- Model of Go `strconv.Atoi`: succeeds exactly on a decimal integer
literal (an optional minus sign followed by digits), returning `0`
alongside an error message otherwise. -/
def atoi (s : String) : Int × Option String :=
  match s.toList with
  | '-' :: rest =>
    match digitsToNat? rest with
    | some n => (-(n : Int), none)
    | none => (0, some ("strconv.Atoi: parsing: invalid syntax: " ++ s))
  | cs =>
    match digitsToNat? cs with
    | some n => ((n : Int), none)
    | none => (0, some ("strconv.Atoi: parsing: invalid syntax: " ++ s))

/-- Model of Go RFC3339 instant parsing for a single bound: succeeds
exactly when the string is the textual form of an instant. -/
def parseInstant (s : String) : Time × Option String :=
  match digitsToNat? s.toList with
  | some t => (t, none)
  | none => (0, some ("parsing time: cannot parse: " ++ s))

/-- Modelled from the spec: `parseTimeRange` (defined elsewhere in the
`rest` package, not under `src/`) reads the two bound parameters with
`Get`, parses each bound that is present, leaves an absent bound's field
at the zero instant, and records one error per malformed bound; the
resulting range and the recorded errors are returned. -/
def parseTimeRange (vals : Vals) (startName endName : String) :
    TimeRange × List String :=
  let sP := if valsGet vals startName ≠ "" then parseInstant (valsGet vals startName)
            else (0, none)
  let eP := if valsGet vals endName ≠ "" then parseInstant (valsGet vals endName)
            else (0, none)
  (⟨sP.1, eP.1⟩, sP.2.toList ++ eP.2.toList)

/-- The query-parameter name constants from the routes. -/
def logStartAt : String := "start"

/-- `logEndAt` query-parameter name. -/
def logEndAt : String := "end"

/-- `execution` query-parameter name. -/
def executionParam : String := "execution"

/-- `proc_name` query-parameter name. -/
def procNameParam : String := "proc_name"

/-- `tags` query-parameter name. -/
def tagsParam : String := "tags"

/-- `print_time` query-parameter name. -/
def printTimeParam : String := "print_time"

/-- `print_priority` query-parameter name. -/
def printPriorityParam : String := "print_priority"

/-- `limit` query-parameter name. -/
def limitParam : String := "limit"

/-- `paginate` query-parameter name. -/
def paginateParam : String := "paginate"

/-- `trueString` constant. -/
def trueString : String := "true"

/-- The `if len(vals[k]) > 0 { x, err = strconv.Atoi(vals[k][0]); catcher.Add(err) }`
pattern shared by the integer fields: the parsed value (Go zero value if
the field is absent or malformed) and the recorded errors. -/
def parseIntField (vals : Vals) (k : String) : Int × List String :=
  if (vals k).length > 0 then
    ((atoi ((vals k).headD "")).1, (atoi ((vals k).headD "")).2.toList)
  else (0, [])

/-- `logGetByIDHandler.Parse`: the populated handler and the error list
accumulated by the grip catcher (`Resolve` fails iff the list is
non-empty). -/
def logGetByIDParse (pathID : String) (vals : Vals) :
    LogGetByIDHandler × List String :=
  let trP := parseTimeRange vals logStartAt logEndAt
  let limP := parseIntField vals limitParam
  ({ id := pathID,
     printTime := valsGet vals printTimeParam == trueString,
     printPriority := valsGet vals printPriorityParam == trueString,
     paginate := valsGet vals paginateParam == trueString,
     tr := trP.1, limit := limP.1 },
   trP.2 ++ limP.2)

/-- `logGetByTaskIDHandler.Parse`: the populated handler and the error
list accumulated by the grip catcher, in source order (time range,
execution, limit, n). -/
def logGetByTaskIDParse (pathTaskID : String) (vals : Vals) :
    LogGetByTaskIDHandler × List String :=
  let trP := parseTimeRange vals logStartAt logEndAt
  let execP := parseIntField vals executionParam
  let limP := parseIntField vals limitParam
  let nP := parseIntField vals "n"
  ({ id := pathTaskID,
     procName := valsGet vals procNameParam,
     tags := vals tagsParam,
     printTime := valsGet vals printTimeParam == trueString,
     printPriority := valsGet vals printPriorityParam == trueString,
     paginate := valsGet vals paginateParam == trueString,
     tr := trP.1, execution := execP.1, limit := limP.1, n := nP.1 },
   trP.2 ++ execP.2 ++ limP.2 ++ nP.2)

/-- `logGroupHandler.Parse`: the time range is parsed only when at least
one bound parameter is present (`if vals.Get(logStartAt) != "" || vals.Get(logEndAt) != ""`);
otherwise the handler's range keeps its zero value. -/
def logGroupParse (pathTaskID pathTestName pathGroupID : String) (vals : Vals) :
    LogGroupHandler × List String :=
  let trP :=
    if valsGet vals logStartAt ≠ "" ∨ valsGet vals logEndAt ≠ "" then
      parseTimeRange vals logStartAt logEndAt
    else (TimeRange.zero, [])
  let limP := parseIntField vals limitParam
  ({ id := pathTaskID, name := pathTestName, groupID := pathGroupID,
     tags := vals tagsParam,
     printTime := valsGet vals printTimeParam == trueString,
     printPriority := valsGet vals printPriorityParam == trueString,
     paginate := valsGet vals paginateParam == trueString,
     tr := trP.1, limit := limP.1 },
   trP.2 ++ limP.2)

/-- A `gimlet.Page`. -/
structure Page where
  baseURL : String
  keyQueryParam : String
  limitQueryParam : String
  key : String
  relation : String
deriving DecidableEq, Repr

/-- A `gimlet.ResponsePages` value: the two navigation descriptors. -/
structure ResponsePages where
  prev : Page
  next : Page
deriving DecidableEq, Repr

/-- The outcome of a handler `Run`: a text response carrying the payload
and the attached pages (if any), or a JSON error response carrying the
wrapped error. -/
inductive Responder where
  | ok (data : List Nat) (pages : Option ResponsePages)
  | jsonError (e : GoError)
deriving DecidableEq, Repr

/-- What a payload-returning connector call yields on success:
`(data, next, paginated)`. -/
structure StoreResult where
  data : List Nat
  next : Time
  paginated : Bool
deriving DecidableEq, Repr

/-- `newBuildloggerResponder(data, last, next, paginated)`. The outcome
of `resp.SetPages` (a gimlet operation whose failure the routes must
surface) is abstracted by `setPagesOk`. -/
def newBuildloggerResponder (data : List Nat) (last next : Time)
    (paginated : Bool) (setPagesOk : Bool) : Responder :=
  if paginated then
    let pages : ResponsePages :=
      { prev := { baseURL := baseURL, keyQueryParam := "start",
                  limitQueryParam := "limit",
                  key := last.formatRFC3339, relation := "prev" },
        next := { baseURL := baseURL, keyQueryParam := "start",
                  limitQueryParam := "limit",
                  key := next.formatRFC3339, relation := "next" } }
    if setPagesOk then Responder.ok data (some pages)
    else Responder.jsonError (.other "problem setting response pages")
  else Responder.ok data none

/-- `logGetByTaskIDHandler.Run` given the connector's `FindLogsByTaskID`
behaviour. -/
def logGetByTaskIDRun (h : LogGetByTaskIDHandler)
    (findLogsByTaskID : BuildloggerOptions → Except GoError StoreResult)
    (setPagesOk : Bool) : Responder :=
  match findLogsByTaskID (logGetByTaskIDOpts h) with
  | .error e => .jsonError e
  | .ok r => newBuildloggerResponder r.data h.tr.startAt r.next r.paginated setPagesOk

/-- The options `logGroupHandler.Run` ends up passing to
`FindGroupedLogs` (or the metadata-fetch error that aborts the run):
when the range is zero, the metadata for the group's filters is fetched
and the range inferred from it; otherwise the options pass through
unchanged. -/
def logGroupStoreOpts (h : LogGroupHandler)
    (findLogMetadataByTestName : BuildloggerOptions → Except GoError (List APILog)) :
    Except GoError BuildloggerOptions :=
  let opts := logGroupOpts h
  if opts.timeRange.isZero then
    match findLogMetadataByTestName opts with
    | .error e => .error e
    | .ok testLogs => .ok { opts with timeRange := inferRange opts.timeRange testLogs }
  else .ok opts

/-- `logGroupHandler.Run` given the connector's behaviours: optional
range inference, then `FindGroupedLogs`, then the responder, which is
passed `h.tr.StartAt` (the handler's parsed range, not the inferred
one). -/
def logGroupRun (h : LogGroupHandler)
    (findLogMetadataByTestName : BuildloggerOptions → Except GoError (List APILog))
    (findGroupedLogs : BuildloggerOptions → Except GoError StoreResult)
    (setPagesOk : Bool) : Responder :=
  match logGroupStoreOpts h findLogMetadataByTestName with
  | .error e => .jsonError e
  | .ok opts =>
    match findGroupedLogs opts with
    | .error e => .jsonError e
    | .ok r => newBuildloggerResponder r.data h.tr.startAt r.next r.paginated setPagesOk

/-- The start-accumulator update of `inferStep` in isolation:
`if startAt.After(c) || startAt.IsZero() { startAt = c }`. -/
def stepS (x c : Time) : Time :=
  if x.after c || x.isZero then c else x

/-- The end-accumulator update of `inferStep` in isolation:
`if endAt.Before(d) { endAt = d }`. -/
def stepE (x d : Time) : Time :=
  if x.before d then d else x

/-- Replace the value list of one query parameter. -/
def setVal (vals : Vals) (k : String) (v : List String) : Vals :=
  fun q => if q = k then v else vals q

/-- The number of malformed fields in a by-task request: a present but
unparsable start bound, end bound, `execution`, `limit`, or `n`. -/
def malformedTaskFieldCount (vals : Vals) : Nat :=
  (if valsGet vals logStartAt ≠ "" ∧
      (parseInstant (valsGet vals logStartAt)).2.isSome then 1 else 0) +
  (if valsGet vals logEndAt ≠ "" ∧
      (parseInstant (valsGet vals logEndAt)).2.isSome then 1 else 0) +
  (if (vals executionParam).length > 0 ∧
      (atoi ((vals executionParam).headD "")).2.isSome then 1 else 0) +
  (if (vals limitParam).length > 0 ∧
      (atoi ((vals limitParam).headD "")).2.isSome then 1 else 0) +
  (if (vals "n").length > 0 ∧
      (atoi ((vals "n").headD "")).2.isSome then 1 else 0)

/-- A concrete query with two malformed integer fields. -/
def valsTwoBad : Vals :=
  fun k => if k = "limit" then ["abc"] else if k = "n" then ["xyz"] else []

theorem logGetByIDOpts_softSizeLimit (h : LogGetByIDHandler) :
    (logGetByIDOpts h).softSizeLimit =
      if h.paginate = true ∧ h.limit ≤ 0 then softSizeLimitConst else 0 := by
  unfold logGetByIDOpts
  by_cases hc : h.paginate = true ∧ h.limit ≤ 0 <;> simp [hc]

theorem logGetByTaskIDOpts_softSizeLimit (h : LogGetByTaskIDHandler) :
    (logGetByTaskIDOpts h).softSizeLimit =
      if h.paginate = true ∧ h.limit ≤ 0 ∧ h.n ≤ 0 then softSizeLimitConst
      else 0 := by
  unfold logGetByTaskIDOpts
  by_cases hc : h.paginate = true ∧ h.limit ≤ 0 ∧ h.n ≤ 0 <;> simp [hc]

theorem logGetByTestNameOpts_softSizeLimit (h : LogGetByTestNameHandler) :
    (logGetByTestNameOpts h).softSizeLimit =
      if h.paginate = true ∧ h.limit ≤ 0 then softSizeLimitConst else 0 := by
  unfold logGetByTestNameOpts
  by_cases hc : h.paginate = true ∧ h.limit ≤ 0 <;> simp [hc]

theorem logGroupOpts_softSizeLimit (h : LogGroupHandler) :
    (logGroupOpts h).softSizeLimit =
      if h.paginate = true ∧ h.limit ≤ 0 then softSizeLimitConst else 0 := by
  unfold logGroupOpts
  by_cases hc : h.paginate = true ∧ h.limit ≤ 0 <;> simp [hc]

theorem logGetByTaskIDOpts_limit (h : LogGetByTaskIDHandler) :
    (logGetByTaskIDOpts h).limit = h.limit := by
  unfold logGetByTaskIDOpts; dsimp only; split <;> rfl

theorem logGetByTaskIDOpts_tail (h : LogGetByTaskIDHandler) :
    (logGetByTaskIDOpts h).tail = h.n := by
  unfold logGetByTaskIDOpts; dsimp only; split <;> rfl

theorem logGroupOpts_timeRange (h : LogGroupHandler) :
    (logGroupOpts h).timeRange = h.tr := by
  unfold logGroupOpts; dsimp only; split <;> rfl

theorem logGroupOpts_tags (h : LogGroupHandler) :
    (logGroupOpts h).tags = h.tags ++ [h.groupID] := by
  unfold logGroupOpts; dsimp only; split <;> rfl

/-- C1: the merge of the by-test-name metadata fan-out, evaluated at the
distinguishing inputs: when the global (test-name-cleared) fetch reports
a not-found `gimlet.ErrorResponse`, the whole call fails; when it
reports an internal-server `ErrorResponse` (500), the error is absorbed
and the test-scoped list alone is returned; when both fetches succeed
the lists are concatenated test-scoped first. The first two outcomes are
the exact opposite of the claimed (and specified) failure policy. -/
theorem c1_merge_behavior_at_failing_inputs :
    logMetaGetByTestNameRun (.ok [⟨1, 2⟩]) (.error (.errorResponse 404)) =
        .error (.errorResponse 404) ∧
    logMetaGetByTestNameRun (.ok [⟨1, 2⟩]) (.error (.errorResponse 500)) =
        .ok [⟨1, 2⟩] ∧
    logMetaGetByTestNameRun (.ok [⟨1, 2⟩]) (.ok [⟨3, 4⟩]) =
        .ok [⟨1, 2⟩, ⟨3, 4⟩] :=
  ⟨rfl, rfl, rfl⟩

/-- C3: for each paginating endpoint, the options carry the 10 MiB soft
size cap exactly when `paginate` is true, the parsed limit is at most
zero and, on the by-task endpoint, the parsed tail count is at most
zero; a positive limit always leaves the soft cap unset. -/
theorem c3_soft_size_mode_selection (h1 : LogGetByIDHandler)
    (h2 : LogGetByTaskIDHandler) (h3 : LogGetByTestNameHandler)
    (h4 : LogGroupHandler) :
    ((logGetByIDOpts h1).softSizeLimit = 10 * 1024 * 1024 ↔
      h1.paginate = true ∧ h1.limit ≤ 0) ∧
    ((logGetByTaskIDOpts h2).softSizeLimit = 10 * 1024 * 1024 ↔
      h2.paginate = true ∧ h2.limit ≤ 0 ∧ h2.n ≤ 0) ∧
    ((logGetByTestNameOpts h3).softSizeLimit = 10 * 1024 * 1024 ↔
      h3.paginate = true ∧ h3.limit ≤ 0) ∧
    ((logGroupOpts h4).softSizeLimit = 10 * 1024 * 1024 ↔
      h4.paginate = true ∧ h4.limit ≤ 0) ∧
    (0 < h1.limit → (logGetByIDOpts h1).softSizeLimit = 0) ∧
    (0 < h2.limit → (logGetByTaskIDOpts h2).softSizeLimit = 0) := by
  rw [logGetByIDOpts_softSizeLimit, logGetByTaskIDOpts_softSizeLimit,
    logGetByTestNameOpts_softSizeLimit, logGroupOpts_softSizeLimit]
  unfold softSizeLimitConst
  refine ⟨?_, ?_, ?_, ?_, ?_, ?_⟩ <;> split <;> simp_all

/-- C3 witness: with `paginate=true` and no limit or tail, the by-task
options carry exactly the 10 MiB soft cap. -/
theorem c3_soft_size_mode_selection_witness :
    (logGetByTaskIDOpts { paginate := true }).softSizeLimit =
      10 * 1024 * 1024 :=
  (c3_soft_size_mode_selection {} { paginate := true } {} {}).2.1.mpr
    (by refine ⟨rfl, ?_, ?_⟩ <;> decide)

/-- C4 counterexample: a request with `limit=5` and `n=3` puts both a
positive count limit and a positive tail count into the options passed
to the store, so two of the claimed mutually-exclusive modes are active
there simultaneously. -/
theorem c4_counterexample_limit_and_tail_both_active :
    0 < (logGetByTaskIDOpts { paginate := true, n := 3, limit := 5 }).limit ∧
    0 < (logGetByTaskIDOpts { paginate := true, n := 3, limit := 5 }).tail := by
  decide

/-- C4 amended: the soft-size-limit mode is never active together with a
positive count limit or a positive tail count in the options passed to
the store; but a request supplying both `limit > 0` and `n > 0` passes
both fields set, their precedence being applied downstream by the
store. -/
theorem c4_soft_size_exclusive (h : LogGetByTaskIDHandler)
    (hs : (logGetByTaskIDOpts h).softSizeLimit ≠ 0) :
    (logGetByTaskIDOpts h).limit ≤ 0 ∧ (logGetByTaskIDOpts h).tail ≤ 0 := by
  rw [logGetByTaskIDOpts_softSizeLimit] at hs
  rw [logGetByTaskIDOpts_limit, logGetByTaskIDOpts_tail]
  by_cases hc : h.paginate = true ∧ h.limit ≤ 0 ∧ h.n ≤ 0
  · exact ⟨hc.2.1, hc.2.2⟩
  · simp [hc] at hs

/-- C4 witness: the amended exclusivity at a concrete paginated
request. -/
theorem c4_soft_size_exclusive_witness :
    (logGetByTaskIDOpts { paginate := true }).softSizeLimit ≠ 0 ∧
    ((logGetByTaskIDOpts { paginate := true }).limit ≤ 0 ∧
      (logGetByTaskIDOpts { paginate := true }).tail ≤ 0) :=
  ⟨by decide, c4_soft_size_exclusive { paginate := true } (by decide)⟩

/-- C6: the tag set the group handler passes to the store is the
explicit tags followed by the group identifier, so the group identifier
is always in the tag filter, tags or no tags. -/
theorem c6_group_id_appended_to_tags (h : LogGroupHandler) :
    (logGroupOpts h).tags = h.tags ++ [h.groupID] ∧
    h.groupID ∈ (logGroupOpts h).tags := by
  refine ⟨logGroupOpts_tags h, ?_⟩
  rw [logGroupOpts_tags h]
  simp

/-- C8: the buildlogger responder attaches, exactly when the store
reported truncation, a prev page keyed by the RFC3339 form of the
requested range's start instant and a next page keyed by the RFC3339
form of the store's continuation instant, both over the fixed base
location with the `start`/`limit` parameter names; a pages-attachment
failure fails the whole response, and an untruncated result gets no
pages. The by-task run wires the handler's parsed range start in as the
prev key. -/
theorem c8_responder_pagination (data : List Nat) (last next : Time)
    (ok : Bool) (h : LogGetByTaskIDHandler) (r : StoreResult) :
    (newBuildloggerResponder data last next true true =
      Responder.ok data (some
        { prev := { baseURL := baseURL, keyQueryParam := "start",
                    limitQueryParam := "limit",
                    key := last.formatRFC3339, relation := "prev" },
          next := { baseURL := baseURL, keyQueryParam := "start",
                    limitQueryParam := "limit",
                    key := next.formatRFC3339, relation := "next" } })) ∧
    (newBuildloggerResponder data last next true false =
      Responder.jsonError (.other "problem setting response pages")) ∧
    (newBuildloggerResponder data last next false ok =
      Responder.ok data none) ∧
    (logGetByTaskIDRun h (fun _ => .ok r) ok =
      newBuildloggerResponder r.data h.tr.startAt r.next r.paginated ok) :=
  ⟨rfl, rfl, rfl, rfl⟩

theorem option_toList_length (o : Option α) :
    o.toList.length = if o.isSome then 1 else 0 := by
  cases o <;> rfl

theorem parseTimeRange_errs_length (vals : Vals) :
    (parseTimeRange vals logStartAt logEndAt).2.length =
      (if valsGet vals logStartAt ≠ "" ∧
          (parseInstant (valsGet vals logStartAt)).2.isSome then 1 else 0) +
      (if valsGet vals logEndAt ≠ "" ∧
          (parseInstant (valsGet vals logEndAt)).2.isSome then 1 else 0) := by
  unfold parseTimeRange
  dsimp only
  by_cases hs : valsGet vals logStartAt = "" <;>
    by_cases he : valsGet vals logEndAt = "" <;>
      simp [hs, he, option_toList_length]

theorem parseIntField_errs_length (vals : Vals) (k : String) :
    (parseIntField vals k).2.length =
      if (vals k).length > 0 ∧ (atoi ((vals k).headD "")).2.isSome then 1
      else 0 := by
  unfold parseIntField
  by_cases hp : (vals k).length > 0 <;> simp [hp, option_toList_length]

theorem logGetByTaskIDParse_errs_length (tid : String) (vals : Vals) :
    (logGetByTaskIDParse tid vals).2.length = malformedTaskFieldCount vals := by
  unfold logGetByTaskIDParse malformedTaskFieldCount
  dsimp only
  rw [List.length_append, List.length_append, List.length_append,
    parseTimeRange_errs_length, parseIntField_errs_length,
    parseIntField_errs_length, parseIntField_errs_length]

/-- C5: for every by-task request with two or more malformed fields
(unparsable start bound, end bound, `execution`, `limit`, or `n`), the
error list the parse step resolves contains one entry per malformed
field: parsing examines every field and never stops at the first
error. -/
theorem c5_one_error_per_malformed_field (tid : String) (vals : Vals)
    (_hm : 2 ≤ malformedTaskFieldCount vals) :
    (logGetByTaskIDParse tid vals).2.length = malformedTaskFieldCount vals :=
  logGetByTaskIDParse_errs_length tid vals

/-- C5 witness: a query with a malformed `limit` and a malformed `n`
yields exactly two recorded errors. -/
theorem c5_one_error_per_malformed_field_witness :
    2 ≤ malformedTaskFieldCount valsTwoBad ∧
    (logGetByTaskIDParse "t1" valsTwoBad).2.length =
      malformedTaskFieldCount valsTwoBad :=
  ⟨by decide, c5_one_error_per_malformed_field "t1" valsTwoBad (by decide)⟩

/-- C10: when a numeric query parameter (`limit`, `execution`, or `n`)
is supplied several times, parsing reads only the first occurrence:
replacing every later occurrence changes neither the parsed handler nor
the recorded errors, on the by-task and the by-id endpoints. -/
theorem c10_first_occurrence_wins (vals : Vals) (tid pid v1 v2 v3 : String)
    (r1 r2 r3 : List String) :
    logGetByTaskIDParse tid
        (setVal (setVal (setVal vals limitParam (v1 :: r1)) executionParam
          (v2 :: r2)) "n" (v3 :: r3)) =
      logGetByTaskIDParse tid
        (setVal (setVal (setVal vals limitParam [v1]) executionParam
          [v2]) "n" [v3]) ∧
    logGetByIDParse pid (setVal vals limitParam (v1 :: r1)) =
      logGetByIDParse pid (setVal vals limitParam [v1]) := by
  constructor <;>
    simp [logGetByTaskIDParse, logGetByIDParse, setVal, parseTimeRange,
      parseIntField, valsGet, limitParam, executionParam, logStartAt,
      logEndAt, procNameParam, tagsParam, printTimeParam,
      printPriorityParam, paginateParam]

theorem inferRange_nil (tr : TimeRange) : inferRange tr [] = tr := rfl

/-- C7: in the group run, range inference happens exactly when the
resolved range is zero: a non-zero range passes through untouched; a
zero range is replaced by the fold over the fetched metadata; a failing
metadata fetch fails the whole run with that error, independently of the
grouped-logs call; a fetch returning no entries leaves the options
unchanged (zero range); and the group parse leaves the range zero when
both bound parameters are absent. -/
theorem c7_group_inference_on_zero_range (h : LogGroupHandler)
    (m : BuildloggerOptions → Except GoError (List APILog)) :
    ((logGroupOpts h).timeRange.isZero = false →
      logGroupStoreOpts h m = .ok (logGroupOpts h)) ∧
    (∀ logs, (logGroupOpts h).timeRange.isZero = true →
      m (logGroupOpts h) = .ok logs →
      logGroupStoreOpts h m =
        .ok { logGroupOpts h with timeRange := inferRange TimeRange.zero logs }) ∧
    (∀ e, (logGroupOpts h).timeRange.isZero = true →
      m (logGroupOpts h) = .error e →
      ∀ g1 g2 ok1 ok2,
        logGroupRun h m g1 ok1 = .jsonError e ∧
        logGroupRun h m g1 ok1 = logGroupRun h m g2 ok2) ∧
    (m (logGroupOpts h) = .ok [] →
      logGroupStoreOpts h m = .ok (logGroupOpts h)) ∧
    (∀ (vals : Vals) (tid tn gid : String), valsGet vals logStartAt = "" →
      valsGet vals logEndAt = "" →
      (logGroupParse tid tn gid vals).1.tr = TimeRange.zero) := by
  refine ⟨?_, ?_, ?_, ?_, ?_⟩
  · intro hz
    simp [logGroupStoreOpts, hz]
  · intro logs hz hm
    have htr : h.tr = TimeRange.zero := by
      rw [logGroupOpts_timeRange] at hz
      unfold TimeRange.isZero Time.isZero at hz
      cases htr' : h.tr
      rw [htr'] at hz
      simp at hz
      simp [TimeRange.zero, hz.1, hz.2]
    simp [logGroupStoreOpts, hz, hm, logGroupOpts_timeRange, htr,
      TimeRange.isZero, TimeRange.zero, Time.isZero]
  · intro e hz hm g1 g2 ok1 ok2
    constructor <;> simp [logGroupRun, logGroupStoreOpts, hz, hm]
  · intro hm
    by_cases hz : (logGroupOpts h).timeRange.isZero = true
    · simp [logGroupStoreOpts, hz, hm, inferRange]
    · simp at hz
      simp [logGroupStoreOpts, hz]
  · intro vals tid tn gid hs he
    simp [logGroupParse, hs, he]

/-- C7 witness: a group request with a zero range and one matching
metadata entry has its store options' range replaced by the inferred
fold. -/
theorem c7_group_inference_on_zero_range_witness :
    logGroupStoreOpts {} (fun _ => .ok [⟨2, 3⟩]) =
      .ok { logGroupOpts {} with
              timeRange := inferRange TimeRange.zero [⟨2, 3⟩] } :=
  (c7_group_inference_on_zero_range {} (fun _ => .ok [⟨2, 3⟩])).2.1
    [⟨2, 3⟩] (by decide) rfl

/-- C9: when the group request parsed no time bounds (zero range) and the
store reports truncation, the prev page key is the RFC3339 form of the
zero instant - the handler's parsed range start - and not the start of
the range inferred for the store call: inference rewrites only the
options passed to `FindGroupedLogs`, never the cursor source. -/
theorem c9_prev_key_is_uninfered_zero_start (h : LogGroupHandler)
    (logs : List APILog) (r : StoreResult)
    (m : BuildloggerOptions → Except GoError (List APILog))
    (g : BuildloggerOptions → Except GoError StoreResult)
    (htr : h.tr = TimeRange.zero)
    (hm : m (logGroupOpts h) = .ok logs)
    (hg : ∀ o, g o = .ok r)
    (hp : r.paginated = true) :
    logGroupStoreOpts h m =
      .ok { logGroupOpts h with timeRange := inferRange TimeRange.zero logs } ∧
    logGroupRun h m g true = .ok r.data (some
      { prev := { baseURL := baseURL, keyQueryParam := "start",
                  limitQueryParam := "limit",
                  key := Time.formatRFC3339 0, relation := "prev" },
        next := { baseURL := baseURL, keyQueryParam := "start",
                  limitQueryParam := "limit",
                  key := r.next.formatRFC3339, relation := "next" } }) := by
  have hz : (logGroupOpts h).timeRange.isZero = true := by
    rw [logGroupOpts_timeRange, htr]; rfl
  have h1 : logGroupStoreOpts h m =
      .ok { logGroupOpts h with timeRange := inferRange TimeRange.zero logs } := by
    simp [logGroupStoreOpts, hz, hm, logGroupOpts_timeRange, htr,
      TimeRange.isZero, TimeRange.zero, Time.isZero]
  refine ⟨h1, ?_⟩
  simp [logGroupRun, h1, hg, newBuildloggerResponder, hp, htr, TimeRange.zero]

/-- C9 witness: a concrete zero-range group request whose inferred range
is non-zero still gets a prev key formatted from the zero instant. -/
theorem c9_prev_key_is_uninfered_zero_start_witness :
    logGroupRun {} (fun _ => .ok [⟨2, 5⟩]) (fun _ => .ok ⟨[9], 7, true⟩) true =
      .ok [9] (some
        { prev := { baseURL := baseURL, keyQueryParam := "start",
                    limitQueryParam := "limit",
                    key := Time.formatRFC3339 0, relation := "prev" },
          next := { baseURL := baseURL, keyQueryParam := "start",
                    limitQueryParam := "limit",
                    key := Time.formatRFC3339 7, relation := "next" } }) :=
  (c9_prev_key_is_uninfered_zero_start {} [⟨2, 5⟩] ⟨[9], 7, true⟩
    (fun _ => .ok [⟨2, 5⟩]) (fun _ => .ok ⟨[9], 7, true⟩)
    rfl rfl (fun _ => rfl) rfl).2

theorem inferStep_eq (tr : TimeRange) (log : APILog) :
    inferStep tr log =
      ⟨stepS tr.startAt log.createdAt, stepE tr.endAt log.completedAt⟩ := by
  unfold inferStep stepS stepE
  by_cases h1 : (tr.startAt.after log.createdAt || tr.startAt.isZero) = true <;>
    by_cases h2 : (tr.endAt.before log.completedAt) = true <;>
      simp [h1, h2]

theorem inferRange_eq (logs : List APILog) : ∀ s e : Time,
    inferRange ⟨s, e⟩ logs =
      ⟨(logs.map (·.createdAt)).foldl stepS s,
       (logs.map (·.completedAt)).foldl stepE e⟩ := by
  induction logs with
  | nil => intro s e; rfl
  | cons l ls ih =>
    intro s e
    have hstep : inferRange ⟨s, e⟩ (l :: ls) =
        inferRange ⟨stepS s l.createdAt, stepE e l.completedAt⟩ ls := by
      unfold inferRange
      rw [List.foldl_cons, inferStep_eq]
    rw [hstep, ih]
    simp

theorem stepE_eq_max (x d : Time) : stepE x d = max x d := by
  unfold stepE Time.before
  by_cases h : x < d
  · simp [h]
    exact le_of_lt h
  · simp [h]
    exact le_of_not_lt h

theorem stepS_zero (c : Time) : stepS 0 c = c := by
  unfold stepS Time.after Time.isZero
  simp

theorem stepS_pos (x c : Time) (hx : 0 < x) (_hc : 0 < c) :
    stepS x c = min x c := by
  unfold stepS Time.after Time.isZero
  have hx0 : (x == 0) = false :=
    beq_eq_false_iff_ne.mpr (Nat.pos_iff_ne_zero.mp hx)
  by_cases h : c < x
  · simp [h, hx0]
    exact le_of_lt h
  · simp [h, hx0]
    exact le_of_not_lt h

theorem foldl_min_le_init (cs : List Time) : ∀ x : Time, cs.foldl min x ≤ x := by
  induction cs with
  | nil => intro x; exact Nat.le_refl x
  | cons c cs ih =>
    intro x
    calc (c :: cs).foldl min x = cs.foldl min (min x c) := by rw [List.foldl_cons]
    _ ≤ min x c := ih (min x c)
    _ ≤ x := Nat.min_le_left x c

theorem foldl_min_le_mem (cs : List Time) :
    ∀ x : Time, ∀ c ∈ cs, cs.foldl min x ≤ c := by
  induction cs with
  | nil => intro x c hc; simp at hc
  | cons c cs ih =>
    intro x d hd
    rcases List.mem_cons.mp hd with rfl | hd'
    · calc (d :: cs).foldl min x = cs.foldl min (min x d) := by
            rw [List.foldl_cons]
      _ ≤ min x d := foldl_min_le_init cs (min x d)
      _ ≤ d := Nat.min_le_right x d
    · rw [List.foldl_cons]; exact ih (min x c) d hd'

theorem foldl_min_mem (cs : List Time) :
    ∀ x : Time, cs.foldl min x = x ∨ cs.foldl min x ∈ cs := by
  induction cs with
  | nil => intro x; exact Or.inl rfl
  | cons c cs ih =>
    intro x
    rw [List.foldl_cons]
    rcases ih (min x c) with h | h
    · rw [h]
      rcases Nat.le_total x c with hxc | hcx
      · exact Or.inl (Nat.min_eq_left hxc)
      · right; rw [Nat.min_eq_right hcx]; exact List.mem_cons_self c cs
    · right; exact List.mem_cons_of_mem c h

theorem le_foldl_max_init (cs : List Time) : ∀ x : Time, x ≤ cs.foldl max x := by
  induction cs with
  | nil => intro x; exact Nat.le_refl x
  | cons c cs ih =>
    intro x
    calc x ≤ max x c := Nat.le_max_left x c
    _ ≤ cs.foldl max (max x c) := ih (max x c)
    _ = (c :: cs).foldl max x := by rw [List.foldl_cons]

theorem le_foldl_max_mem (cs : List Time) :
    ∀ x : Time, ∀ c ∈ cs, c ≤ cs.foldl max x := by
  induction cs with
  | nil => intro x c hc; simp at hc
  | cons c cs ih =>
    intro x d hd
    rcases List.mem_cons.mp hd with rfl | hd'
    · calc d ≤ max x d := Nat.le_max_right x d
      _ ≤ cs.foldl max (max x d) := le_foldl_max_init cs (max x d)
      _ = (d :: cs).foldl max x := by rw [List.foldl_cons]
    · rw [List.foldl_cons]; exact ih (max x c) d hd'

theorem foldl_max_mem (cs : List Time) :
    ∀ x : Time, cs.foldl max x = x ∨ cs.foldl max x ∈ cs := by
  induction cs with
  | nil => intro x; exact Or.inl rfl
  | cons c cs ih =>
    intro x
    rw [List.foldl_cons]
    rcases ih (max x c) with h | h
    · rw [h]
      rcases Nat.le_total x c with hxc | hcx
      · right; rw [Nat.max_eq_right hxc]; exact List.mem_cons_self c cs
      · exact Or.inl (Nat.max_eq_left hcx)
    · right; exact List.mem_cons_of_mem c h

theorem foldl_stepE_eq_max (cs : List Time) (x : Time) :
    cs.foldl stepE x = cs.foldl max x := by
  have h : stepE = fun a b : Time => max a b :=
    funext fun a => funext fun b => stepE_eq_max a b
  rw [h]

theorem foldl_stepS_pos (cs : List Time) : ∀ x : Time, 0 < x →
    (∀ c ∈ cs, 0 < c) → cs.foldl stepS x = cs.foldl min x := by
  induction cs with
  | nil => intros; rfl
  | cons c cs ih =>
    intro x hx hcs
    have hc : 0 < c := hcs c (List.mem_cons_self c cs)
    rw [List.foldl_cons, List.foldl_cons, stepS_pos x c hx hc]
    exact ih (min x c) (lt_min hx hc) (fun d hd => hcs d (List.mem_cons_of_mem c hd))

theorem foldl_stepS_zero_char (cs : List Time) (hne : cs ≠ [])
    (hpos : ∀ c ∈ cs, 0 < c) :
    cs.foldl stepS 0 ∈ cs ∧ ∀ c ∈ cs, cs.foldl stepS 0 ≤ c := by
  cases cs with
  | nil => exact absurd rfl hne
  | cons c cs' =>
    have hc : 0 < c := hpos c (List.mem_cons_self c cs')
    have h0 : (c :: cs').foldl stepS 0 = cs'.foldl min c := by
      rw [List.foldl_cons, stepS_zero,
        foldl_stepS_pos cs' c hc (fun d hd => hpos d (List.mem_cons_of_mem c hd))]
    rw [h0]
    constructor
    · rcases foldl_min_mem cs' c with h | h
      · rw [h]; exact List.mem_cons_self c cs'
      · exact List.mem_cons_of_mem c h
    · intro d hd
      rcases List.mem_cons.mp hd with rfl | hd'
      · exact foldl_min_le_init cs' d
      · exact foldl_min_le_mem cs' c d hd'

theorem foldl_stepE_zero_char (cs : List Time) (hne : cs ≠ []) :
    cs.foldl stepE 0 ∈ cs ∧ ∀ c ∈ cs, c ≤ cs.foldl stepE 0 := by
  rw [foldl_stepE_eq_max]
  constructor
  · rcases foldl_max_mem cs 0 with h | h
    · cases cs with
      | nil => exact absurd rfl hne
      | cons c cs' =>
        have hcle : c ≤ (c :: cs').foldl max 0 :=
          le_foldl_max_mem (c :: cs') 0 c (List.mem_cons_self c cs')
        rw [h] at hcle
        have hc0 : c = 0 := Nat.le_zero.mp hcle
        rw [h, ← hc0]
        exact List.mem_cons_self c cs'
    · exact h
  · exact le_foldl_max_mem cs 0

/-- C2 counterexample: from a zero accumulator, the entries
`(0,0), (5,0)` infer a range starting at `5`, not at the minimum `0` of
their `CreatedAt` instants, and swapping the two entries changes the
inferred range - the zero `CreatedAt` re-arms the zero-accumulator rule
mid-fold. -/
theorem c2_counterexample_zero_created_at :
    inferRange TimeRange.zero [⟨0, 0⟩, ⟨5, 0⟩] = ⟨5, 0⟩ ∧
    inferRange TimeRange.zero [⟨5, 0⟩, ⟨0, 0⟩] = ⟨0, 0⟩ := by
  decide

/-- C2 amended: for every non-empty metadata list in which every entry's
`CreatedAt` is non-zero, the inferred range starts at the minimum of the
`CreatedAt` instants (an element of the list that bounds them all below)
and ends at the maximum of the `CompletedAt` instants, and the inferred
range is independent of the order of the entries. -/
theorem c2_inferred_range_is_min_max (logs logs' : List APILog)
    (hne : logs ≠ []) (hpos : ∀ l ∈ logs, 0 < l.createdAt)
    (hperm : logs.Perm logs') :
    ((inferRange TimeRange.zero logs).startAt ∈ logs.map (·.createdAt) ∧
      ∀ l ∈ logs, (inferRange TimeRange.zero logs).startAt ≤ l.createdAt) ∧
    ((inferRange TimeRange.zero logs).endAt ∈ logs.map (·.completedAt) ∧
      ∀ l ∈ logs, l.completedAt ≤ (inferRange TimeRange.zero logs).endAt) ∧
    inferRange TimeRange.zero logs' = inferRange TimeRange.zero logs := by
  have char : ∀ L : List APILog, L ≠ [] → (∀ l ∈ L, 0 < l.createdAt) →
      ((inferRange TimeRange.zero L).startAt ∈ L.map (·.createdAt) ∧
        ∀ c ∈ L.map (·.createdAt), (inferRange TimeRange.zero L).startAt ≤ c) ∧
      ((inferRange TimeRange.zero L).endAt ∈ L.map (·.completedAt) ∧
        ∀ c ∈ L.map (·.completedAt), c ≤ (inferRange TimeRange.zero L).endAt) := by
    intro L hL hp
    rw [show (TimeRange.zero : TimeRange) = ⟨0, 0⟩ from rfl, inferRange_eq]
    dsimp only
    refine ⟨?_, ?_⟩
    · exact foldl_stepS_zero_char (L.map (·.createdAt)) (by simpa using hL)
        (by
          intro c hc
          obtain ⟨l, hl, rfl⟩ := List.mem_map.mp hc
          exact hp l hl)
    · exact foldl_stepE_zero_char (L.map (·.completedAt)) (by simpa using hL)
  obtain ⟨⟨hsm, hsb⟩, hem, heb⟩ := char logs hne hpos
  have hne' : logs' ≠ [] := by
    intro hnil
    exact hne (List.Perm.eq_nil (hnil ▸ hperm))
  have hpos' : ∀ l ∈ logs', 0 < l.createdAt := fun l hl =>
    hpos l (hperm.mem_iff.mpr hl)
  obtain ⟨⟨hsm', hsb'⟩, hem', heb'⟩ := char logs' hne' hpos'
  have hpermC : (logs.map (·.createdAt)).Perm (logs'.map (·.createdAt)) :=
    hperm.map _
  have hpermD : (logs.map (·.completedAt)).Perm (logs'.map (·.completedAt)) :=
    hperm.map _
  have hstart : (inferRange TimeRange.zero logs').startAt =
      (inferRange TimeRange.zero logs).startAt :=
    Nat.le_antisymm
      (hsb' _ (hpermC.mem_iff.mp hsm))
      (hsb _ (hpermC.mem_iff.mpr hsm'))
  have hend : (inferRange TimeRange.zero logs').endAt =
      (inferRange TimeRange.zero logs).endAt :=
    Nat.le_antisymm
      (heb _ (hpermD.mem_iff.mpr hem'))
      (heb' _ (hpermD.mem_iff.mp hem))
  refine ⟨⟨hsm, ?_⟩, ⟨hem, ?_⟩, ?_⟩
  · intro l hl
    exact hsb _ (List.mem_map_of_mem _ hl)
  · intro l hl
    exact heb _ (List.mem_map_of_mem _ hl)
  · calc inferRange TimeRange.zero logs' =
        ⟨(inferRange TimeRange.zero logs').startAt,
         (inferRange TimeRange.zero logs').endAt⟩ := rfl
    _ = ⟨(inferRange TimeRange.zero logs).startAt,
         (inferRange TimeRange.zero logs).endAt⟩ := by rw [hstart, hend]
    _ = inferRange TimeRange.zero logs := rfl

/-- C2 witness: two positively-stamped entries in either order infer the
same range. -/
theorem c2_inferred_range_is_min_max_witness :
    inferRange TimeRange.zero [⟨1, 2⟩, ⟨3, 4⟩] =
      inferRange TimeRange.zero [⟨3, 4⟩, ⟨1, 2⟩] :=
  (c2_inferred_range_is_min_max [⟨3, 4⟩, ⟨1, 2⟩] [⟨1, 2⟩, ⟨3, 4⟩]
    (by decide) (by decide)
    (List.Perm.swap (⟨1, 2⟩ : APILog) (⟨3, 4⟩ : APILog) [])).2.2
